import Mathlib

/-
Verification development for paddle/phi/kernels/autotune/cache.h.

The C++ header defines:
  - HashCombine / std::hash<std::vector<T>> / GetKey: order-sensitive
    fingerprint hashing over size_t (64-bit unsigned, wrapping) arithmetic;
  - AlgorithmsCache<AlgorithmT>: an unordered_map from size_t keys to
    algorithm values with hit/miss counters (int64_t) and Find/Get/Set;
  - AutoTuneCache: a registry mapping family-name strings to
    AlgorithmsCache<int64_t>, with RegisterOrGet, Clean, UpdateStatus and
    snapshot accessors.

Embedding choices: size_t keys and hash values are Nat taken modulo 2^64
where the C++ arithmetic wraps; int64_t counters are Int (they only ever
grow by 1 from 0, so no wraparound is reachable); the unordered_map is an
association list with unique-key insert semantics (insert overwrites in
place, otherwise appends); float results are modelled as exact rationals;
PADDLE_ENFORCE_NE failure is an Except.error carrying the message.
-/

namespace PhiAutotune

/-- One 64-bit word: size_t arithmetic in the source wraps modulo this. -/
def M64 : Nat := 2 ^ 64

/-- The golden-ratio constant used by HashCombine in the source. -/
def hashMagic : Nat := 0x9e3779b9

/-- One step of HashCombine from the source:
seed ^= hasher(v) + 0x9e3779b9 + (seed << 6) + (seed >> 2),
with the size_t additions and shifts wrapping modulo 2^64. -/
def hashStep (seed h : Nat) : Nat :=
  seed ^^^ ((h + hashMagic + (seed <<< 6) % M64 + seed >>> 2) % M64)

/-- The variadic HashCombine of the source, with the argument pack modelled
as a list of already-hashed values: the base case HashCombine(seed) does
nothing, the recursive case mixes the head and recurses on the rest. -/
def HashCombine (seed : Nat) : List Nat → Nat
  | [] => seed
  | h :: rest => HashCombine (hashStep seed h) rest

/-- The std::hash<std::vector<T>> specialization of the source: seed starts
at 0 and the loop body calls the variadic HashCombine with one element. -/
def hashVector (hs : List Nat) : Nat :=
  hs.foldl (fun seed val => HashCombine seed [val]) 0

/-- One GetKey argument: either a scalar whose std::hash value is given, or
a std::vector of scalars given by their element hash values. -/
inductive HashArg where
  | scalar (h : Nat)
  | vec (hs : List Nat)
deriving DecidableEq, Repr

/-- The hash value the source computes for one argument: std::hash of a
scalar is the given value; std::hash of a vector is the specialization. -/
def argHash : HashArg → Nat
  | .scalar h => h
  | .vec hs => hashVector hs

/-- GetKey from the source: seed = 0, then HashCombine over the arguments
left to right. -/
def GetKey (args : List HashArg) : Nat :=
  HashCombine 0 (args.map argHash)

/-! ### Association lists standing in for std::unordered_map -/

/-- Lookup in the association list modelling unordered_map::find. -/
def assocFind {κ V : Type} [DecidableEq κ] : List (κ × V) → κ → Option V
  | [], _ => none
  | (k', v') :: rest, k => if k' = k then some v' else assocFind rest k

/-- Insert-or-overwrite modelling unordered_map::operator[] assignment:
an existing binding for the key is replaced in place, otherwise the new
binding is appended; keys stay unique. -/
def assocInsert {κ V : Type} [DecidableEq κ] : List (κ × V) → κ → V → List (κ × V)
  | [], k, v => [(k, v)]
  | (k', v') :: rest, k, v =>
      if k' = k then (k, v) :: rest else (k', v') :: assocInsert rest k v

/-! ### AlgorithmsCache<AlgorithmT> -/

/-- The state of one AlgorithmsCache<AlgorithmT>: the unordered_map hash_,
and the two int64_t counters. The mutex has no state content. -/
structure AlgorithmsCache (V : Type) where
  hash_ : List (Nat × V)
  cache_hits_ : Int
  cache_misses_ : Int
deriving Repr

namespace AlgorithmsCache

variable {V : Type}

/-- The constructor: hash_ cleared, both counters at their initializers 0. -/
def empty : AlgorithmsCache V := ⟨[], 0, 0⟩

/-- Get from the source: PADDLE_ENFORCE_NE(hash_.find(key), hash_.end(), ...)
raises PreconditionNotMet("The key does not exist.") when the key is absent,
otherwise hash_[key] is returned; the state is unchanged either way (the
enforce fires before operator[] can touch the map). -/
def Get (c : AlgorithmsCache V) (key : Nat) : Except String V × AlgorithmsCache V :=
  match assocFind c.hash_ key with
  | some v => (Except.ok v, c)
  | none => (Except.error "The key does not exist.", c)

/-- Find from the source: present keys bump cache_hits_ and return true,
absent keys bump cache_misses_ and return false. -/
def Find (c : AlgorithmsCache V) (key : Nat) : Bool × AlgorithmsCache V :=
  match assocFind c.hash_ key with
  | some _ => (true, { c with cache_hits_ := c.cache_hits_ + 1 })
  | none => (false, { c with cache_misses_ := c.cache_misses_ + 1 })

/-- Set from the source: hash_[key] = algo, inserting or overwriting. -/
def Set (c : AlgorithmsCache V) (key : Nat) (algo : V) : AlgorithmsCache V :=
  { c with hash_ := assocInsert c.hash_ key algo }

/-- CacheMisses accessor. -/
def CacheMisses (c : AlgorithmsCache V) : Int := c.cache_misses_

/-- CacheHits accessor. -/
def CacheHits (c : AlgorithmsCache V) : Int := c.cache_hits_

/-- CacheHitRate from the source, with the float arithmetic modelled as
exact rationals: rate starts at 0 and is replaced by hits divided by the
access count only when the access count is nonzero. -/
def CacheHitRate (c : AlgorithmsCache V) : ℚ :=
  let num_accesses : Int := c.cache_hits_ + c.cache_misses_
  if num_accesses = 0 then 0
  else (c.cache_hits_ : ℚ) / (num_accesses : ℚ)

/-- Size accessor: hash_.size() as int64_t. -/
def Size (c : AlgorithmsCache V) : Int := (c.hash_.length : Int)

end AlgorithmsCache

/-! ### AutoTuneCache registry -/

/-- The state of the AutoTuneCache registry: auto_tune_map_ from family-name
strings to AlgorithmsCache<int64_t>, plus the int64_t snapshot totals. -/
structure AutoTuneCache where
  auto_tune_map_ : List (String × AlgorithmsCache Int)
  total_cache_hits_ : Int
  total_cache_misses_ : Int
  total_size_ : Int
deriving Repr

namespace AutoTuneCache

/-- The private constructor: empty map, totals at their initializers 0. -/
def empty : AutoTuneCache := ⟨[], 0, 0, 0⟩

/-- RegisterOrGet from the source: when algo_type is absent a
default-constructed cache is inserted; either way the entry now stored
under algo_type is returned (as a reference; here as a value together with
the updated registry state). -/
def RegisterOrGet (r : AutoTuneCache) (algo_type : String) :
    AlgorithmsCache Int × AutoTuneCache :=
  let m := match assocFind r.auto_tune_map_ algo_type with
    | none => assocInsert r.auto_tune_map_ algo_type AlgorithmsCache.empty
    | some _ => r.auto_tune_map_
  ((assocFind m algo_type).getD AlgorithmsCache.empty, { r with auto_tune_map_ := m })

/-- Clean from the source: miss_rate above the 0.01 tolerance clears the
whole family map; otherwise nothing happens. Note the totals are not reset.
The float comparison is modelled over exact rationals. -/
def Clean (r : AutoTuneCache) (miss_rate : ℚ) : AutoTuneCache :=
  if miss_rate > 1 / 100 then { r with auto_tune_map_ := [] } else r

/-- UpdateStatus from the source: one pass over auto_tune_map_ accumulating
size, cache_hits and cache_misses from each family, then the three totals
are overwritten with the accumulated sums. -/
def UpdateStatus (r : AutoTuneCache) : AutoTuneCache :=
  let acc := r.auto_tune_map_.foldl
    (fun acc v => (acc.1 + v.2.Size, acc.2.1 + v.2.CacheHits, acc.2.2 + v.2.CacheMisses))
    ((0 : Int), (0 : Int), (0 : Int))
  { r with total_size_ := acc.1, total_cache_hits_ := acc.2.1,
           total_cache_misses_ := acc.2.2 }

/-- Size accessor: the snapshot total_size_. -/
def Size (r : AutoTuneCache) : Int := r.total_size_

/-- CacheHits accessor: the snapshot total_cache_hits_. -/
def CacheHits (r : AutoTuneCache) : Int := r.total_cache_hits_

/-- CacheMisses accessor: the snapshot total_cache_misses_. -/
def CacheMisses (r : AutoTuneCache) : Int := r.total_cache_misses_

/-- Registry-level CacheHitRate from the source, float modelled as exact
rationals, with the same zero-access guard as the family-level one. -/
def CacheHitRate (r : AutoTuneCache) : ℚ :=
  let total_num_accesses : Int := r.total_cache_hits_ + r.total_cache_misses_
  if total_num_accesses = 0 then 0
  else (r.total_cache_hits_ : ℚ) / (total_num_accesses : ℚ)

/-- A mutation made through a handle previously returned by RegisterOrGet:
the shared AlgorithmsCache stored under the family name receives a Set.
When the family is not registered the handle cannot exist and the registry
is unchanged. -/
def SetInFamily (r : AutoTuneCache) (algo_type : String) (key : Nat) (v : Int) :
    AutoTuneCache :=
  match assocFind r.auto_tune_map_ algo_type with
  | some c => { r with auto_tune_map_ := assocInsert r.auto_tune_map_ algo_type (c.Set key v) }
  | none => r

end AutoTuneCache

/-! ### Association-list lemmas -/

section AssocLemmas

variable {κ V : Type} [DecidableEq κ]

theorem assocFind_insert_self (l : List (κ × V)) (k : κ) (v : V) :
    assocFind (assocInsert l k v) k = some v := by
  induction l with
  | nil => simp [assocInsert, assocFind]
  | cons p rest ih =>
      obtain ⟨k', v'⟩ := p
      by_cases h : k' = k
      · simp [assocInsert, assocFind, h]
      · simp [assocInsert, assocFind, h, ih]

theorem assocInsert_length_present (l : List (κ × V)) (k : κ) (v : V)
    (h : (assocFind l k).isSome) :
    (assocInsert l k v).length = l.length := by
  induction l with
  | nil => simp [assocFind] at h
  | cons p rest ih =>
      obtain ⟨k', v'⟩ := p
      by_cases hk : k' = k
      · simp [assocInsert, hk]
      · simp [assocFind, hk] at h
        simp [assocInsert, hk, ih h]

theorem assocInsert_length_absent (l : List (κ × V)) (k : κ) (v : V)
    (h : assocFind l k = none) :
    (assocInsert l k v).length = l.length + 1 := by
  induction l with
  | nil => simp [assocInsert]
  | cons p rest ih =>
      obtain ⟨k', v'⟩ := p
      by_cases hk : k' = k
      · simp [assocFind, hk] at h
      · simp [assocFind, hk] at h
        simp [assocInsert, hk, ih h]

end AssocLemmas

/-! ### Claims about AlgorithmsCache -/

/-- Claim C1: for every key k and value v, after Set(k, v) on an
AlgorithmsCache, Find(k) returns true and Get(k) returns v without raising
the precondition error. -/
theorem find_get_after_set {V : Type} (c : AlgorithmsCache V) (k : Nat) (v : V) :
    ((c.Set k v).Find k).1 = true ∧ ((c.Set k v).Get k).1 = Except.ok v := by
  refine ⟨?_, ?_⟩ <;>
    simp [AlgorithmsCache.Find, AlgorithmsCache.Get, AlgorithmsCache.Set,
      assocFind_insert_self]

/-- Claim C2: Find on an absent key increments the miss counter by exactly 1
and leaves the hit counter unchanged; Find on a present key increments the
hit counter by exactly 1 and leaves the miss counter unchanged; Get and Set
never change either counter; consequently both counters are non-decreasing
across every operation. -/
theorem find_counter_accounting {V : Type} (c : AlgorithmsCache V) (k : Nat) :
    (assocFind c.hash_ k = none →
      ((c.Find k).2).CacheMisses = c.CacheMisses + 1
        ∧ ((c.Find k).2).CacheHits = c.CacheHits)
    ∧ ((assocFind c.hash_ k).isSome →
      ((c.Find k).2).CacheHits = c.CacheHits + 1
        ∧ ((c.Find k).2).CacheMisses = c.CacheMisses)
    ∧ (∀ v : V, (c.Set k v).CacheHits = c.CacheHits
        ∧ (c.Set k v).CacheMisses = c.CacheMisses)
    ∧ (((c.Get k).2).CacheHits = c.CacheHits
        ∧ ((c.Get k).2).CacheMisses = c.CacheMisses)
    ∧ (c.CacheHits ≤ ((c.Find k).2).CacheHits
        ∧ c.CacheMisses ≤ ((c.Find k).2).CacheMisses) := by
  cases h : assocFind c.hash_ k <;>
    simp [AlgorithmsCache.Find, AlgorithmsCache.Get, AlgorithmsCache.Set,
      AlgorithmsCache.CacheHits, AlgorithmsCache.CacheMisses, h]

/-- Witness for C2 on a concrete cache with one mapping and counters 2, 3:
a Find of an absent key bumps misses, a Find of the present key bumps hits. -/
theorem find_counter_accounting_witness :
    ((((⟨[(1, 5)], 2, 3⟩ : AlgorithmsCache Int).Find 0).2).CacheMisses
        = (⟨[(1, 5)], 2, 3⟩ : AlgorithmsCache Int).CacheMisses + 1
      ∧ (((⟨[(1, 5)], 2, 3⟩ : AlgorithmsCache Int).Find 0).2).CacheHits
        = (⟨[(1, 5)], 2, 3⟩ : AlgorithmsCache Int).CacheHits)
    ∧ ((((⟨[(1, 5)], 2, 3⟩ : AlgorithmsCache Int).Find 1).2).CacheHits
        = (⟨[(1, 5)], 2, 3⟩ : AlgorithmsCache Int).CacheHits + 1
      ∧ (((⟨[(1, 5)], 2, 3⟩ : AlgorithmsCache Int).Find 1).2).CacheMisses
        = (⟨[(1, 5)], 2, 3⟩ : AlgorithmsCache Int).CacheMisses) :=
  ⟨(find_counter_accounting (⟨[(1, 5)], 2, 3⟩ : AlgorithmsCache Int) 0).1 (by decide),
   (find_counter_accounting (⟨[(1, 5)], 2, 3⟩ : AlgorithmsCache Int) 1).2.1 (by decide)⟩

/-- Claim C5: Get on an absent key yields exactly the precondition error
with message "The key does not exist." and leaves the whole cache state
unchanged; an error result can only arise from an absent key and carries
only that message; Get never changes the state. Find, Set, the accessors
and the registry operations are total by their Lean types. -/
theorem get_absent_error {V : Type} (c : AlgorithmsCache V) (k : Nat) :
    (assocFind c.hash_ k = none →
      c.Get k = (Except.error "The key does not exist.", c))
    ∧ (∀ e : String, (c.Get k).1 = Except.error e →
        assocFind c.hash_ k = none ∧ e = "The key does not exist.")
    ∧ (c.Get k).2 = c := by
  cases h : assocFind c.hash_ k <;> simp [AlgorithmsCache.Get, h]

/-- Witness for C5: on a concrete one-entry cache, Get of the absent key 0
returns the error pair with the state unchanged. -/
theorem get_absent_error_witness :
    (⟨[(1, 5)], 2, 3⟩ : AlgorithmsCache Int).Get 0
      = (Except.error "The key does not exist.",
         (⟨[(1, 5)], 2, 3⟩ : AlgorithmsCache Int)) :=
  (get_absent_error (⟨[(1, 5)], 2, 3⟩ : AlgorithmsCache Int) 0).1 (by decide)

/-- Claim C6: Set(k, v1) then Set(k, v2) leaves Get(k) equal to v2; the
second Set of an already-present key leaves Size unchanged, while Set of a
fresh key increases Size by exactly 1. -/
theorem set_overwrite_and_size {V : Type} (c : AlgorithmsCache V) (k : Nat) (v1 v2 : V) :
    (((c.Set k v1).Set k v2).Get k).1 = Except.ok v2
    ∧ ((c.Set k v1).Set k v2).Size = (c.Set k v1).Size
    ∧ ((assocFind c.hash_ k).isSome → (c.Set k v1).Size = c.Size)
    ∧ (assocFind c.hash_ k = none → (c.Set k v1).Size = c.Size + 1) := by
  refine ⟨?_, ?_, ?_, ?_⟩
  · simp [AlgorithmsCache.Get, AlgorithmsCache.Set, assocFind_insert_self]
  · have hpresent : (assocFind (assocInsert c.hash_ k v1) k).isSome := by
      simp [assocFind_insert_self]
    simp [AlgorithmsCache.Set, AlgorithmsCache.Size,
      assocInsert_length_present _ _ _ hpresent]
  · intro h
    simp [AlgorithmsCache.Set, AlgorithmsCache.Size,
      assocInsert_length_present _ _ _ h]
  · intro h
    simp [AlgorithmsCache.Set, AlgorithmsCache.Size,
      assocInsert_length_absent _ _ _ h]

/-- Witness for C6 on a concrete cache: overwriting key 1 keeps Size at 1,
and a fresh Set of key 0 grows Size from 1 to 2. -/
theorem set_overwrite_and_size_witness :
    (((⟨[(1, 5)], 2, 3⟩ : AlgorithmsCache Int).Set 1 9).Size
        = (⟨[(1, 5)], 2, 3⟩ : AlgorithmsCache Int).Size)
    ∧ ((⟨[(1, 5)], 2, 3⟩ : AlgorithmsCache Int).Set 0 9).Size
        = (⟨[(1, 5)], 2, 3⟩ : AlgorithmsCache Int).Size + 1 :=
  ⟨(set_overwrite_and_size (⟨[(1, 5)], 2, 3⟩ : AlgorithmsCache Int) 1 9 9).2.2.1 (by decide),
   (set_overwrite_and_size (⟨[(1, 5)], 2, 3⟩ : AlgorithmsCache Int) 0 9 9).2.2.2 (by decide)⟩

/-! ### Claim about the fingerprint hash -/

/-- The mixing formula exactly as the specification words it:
seed XOR (hash + 0x9e3779b9 + (seed shifted left by 6) + (seed shifted
right by 2)), over 64-bit unsigned arithmetic. Stated from the spec for
comparison against the source-derived hashStep. -/
def specMix (seed h : Nat) : Nat :=
  seed ^^^ ((h + 0x9e3779b9 + seed * 2 ^ 6 + seed / 2 ^ 2) % 2 ^ 64)

/-- The per-argument hash as the specification words it: a scalar is its
own hash; a vector is reduced with the same recurrence over its elements
in order, seeded from 0. -/
def specArgHash : HashArg → Nat
  | .scalar h => h
  | .vec hs => hs.foldl specMix 0

theorem hashStep_eq_specMix : hashStep = specMix := by
  funext seed h
  simp only [hashStep, specMix, hashMagic, M64, Nat.shiftLeft_eq,
    Nat.shiftRight_eq_div_pow]
  congr 1
  rw [add_right_comm (h + 0x9e3779b9) ((seed * 2 ^ 6) % 2 ^ 64) (seed / 2 ^ 2),
    Nat.add_mod_mod, add_right_comm (h + 0x9e3779b9) (seed / 2 ^ 2) (seed * 2 ^ 6)]

theorem HashCombine_eq_foldl (l : List Nat) (seed : Nat) :
    HashCombine seed l = l.foldl hashStep seed := by
  induction l generalizing seed with
  | nil => rfl
  | cons h rest ih => simp [HashCombine, List.foldl, ih]

theorem argHash_eq_specArgHash : argHash = specArgHash := by
  funext a
  cases a with
  | scalar h => rfl
  | vec hs =>
      show hashVector hs = hs.foldl specMix 0
      have hfun : (fun seed val => HashCombine seed [val]) = hashStep := by
        funext s v
        rfl
      rw [hashVector, hfun, hashStep_eq_specMix]

/-- Claim C3: GetKey folds its arguments left to right starting from seed 0
with the recurrence seed = seed XOR (hash(value) + 0x9e3779b9 +
(seed shifted left by 6) + (seed shifted right by 2)) over 64-bit unsigned
arithmetic, and each vector argument is first reduced with the same
recurrence over its elements in order, seeded from 0, then folded into the
outer accumulator as one scalar hash. -/
theorem getKey_spec_recurrence :
    (∀ args : List HashArg,
        GetKey args = args.foldl (fun seed a => specMix seed (specArgHash a)) 0)
    ∧ (∀ hs : List Nat, argHash (.vec hs) = hs.foldl specMix 0) := by
  constructor
  · intro args
    rw [GetKey, HashCombine_eq_foldl, List.foldl_map, hashStep_eq_specMix,
      argHash_eq_specArgHash]
  · intro hs
    rw [argHash_eq_specArgHash]
    rfl

/-! ### Claims about the AutoTuneCache registry -/

/-- Claim C4: Clean with miss_rate strictly above 0.01 removes every
registered family from the registry, so the map is empty and any family
obtained afterwards through RegisterOrGet is freshly created with Size,
hits and misses all 0; Clean with miss_rate at or below 0.01 leaves the
registry completely unchanged. -/
theorem clean_flush_policy (r : AutoTuneCache) (miss_rate : ℚ) :
    (miss_rate > 1 / 100 →
      (r.Clean miss_rate).auto_tune_map_ = []
        ∧ ∀ name : String,
            (((r.Clean miss_rate).RegisterOrGet name).1).Size = 0
              ∧ (((r.Clean miss_rate).RegisterOrGet name).1).CacheHits = 0
              ∧ (((r.Clean miss_rate).RegisterOrGet name).1).CacheMisses = 0)
    ∧ (miss_rate ≤ 1 / 100 → r.Clean miss_rate = r) := by
  constructor
  · intro h
    have hmap : (r.Clean miss_rate).auto_tune_map_ = [] := by
      rw [AutoTuneCache.Clean, if_pos h]
    refine ⟨hmap, fun name => ?_⟩
    simp [AutoTuneCache.RegisterOrGet, hmap, assocFind, assocInsert,
      AlgorithmsCache.empty, AlgorithmsCache.Size, AlgorithmsCache.CacheHits,
      AlgorithmsCache.CacheMisses]
  · intro h
    rw [AutoTuneCache.Clean, if_neg (not_lt.mpr h)]

/-- Witness for C4: a registry with one populated family is emptied by
Clean at rate 2/100 and untouched by Clean at rate 1/200. -/
theorem clean_flush_policy_witness :
    (AutoTuneCache.Clean ⟨[("conv", ⟨[(1, 7)], 1, 1⟩)], 0, 0, 0⟩ (2 / 100)).auto_tune_map_ = []
    ∧ AutoTuneCache.Clean ⟨[("conv", ⟨[(1, 7)], 1, 1⟩)], 0, 0, 0⟩ (1 / 200)
        = ⟨[("conv", ⟨[(1, 7)], 1, 1⟩)], 0, 0, 0⟩ :=
  ⟨((clean_flush_policy ⟨[("conv", ⟨[(1, 7)], 1, 1⟩)], 0, 0, 0⟩ (2 / 100)).1
      (by norm_num)).1,
   (clean_flush_policy ⟨[("conv", ⟨[(1, 7)], 1, 1⟩)], 0, 0, 0⟩ (1 / 200)).2
      (by norm_num)⟩

/-- Claim C7: the family-level CacheHitRate equals hits/(hits+misses)
whenever hits+misses is nonzero and equals 0 when hits+misses is zero, and
the registry-level CacheHitRate obeys the same formula with the same
zero-guard over the snapshotted totals. Division is modelled over exact
rationals in place of float. -/
theorem cache_hit_rate_formula {V : Type} (c : AlgorithmsCache V) (r : AutoTuneCache) :
    (c.CacheHits + c.CacheMisses ≠ 0 →
      c.CacheHitRate = (c.CacheHits : ℚ) / ((c.CacheHits : ℚ) + (c.CacheMisses : ℚ)))
    ∧ (c.CacheHits + c.CacheMisses = 0 → c.CacheHitRate = 0)
    ∧ (r.CacheHits + r.CacheMisses ≠ 0 →
      r.CacheHitRate = (r.CacheHits : ℚ) / ((r.CacheHits : ℚ) + (r.CacheMisses : ℚ)))
    ∧ (r.CacheHits + r.CacheMisses = 0 → r.CacheHitRate = 0) := by
  refine ⟨fun h => ?_, fun h => ?_, fun h => ?_, fun h => ?_⟩
  · have h' : c.cache_hits_ + c.cache_misses_ ≠ 0 := h
    rw [AlgorithmsCache.CacheHitRate, if_neg h']
    push_cast
    rfl
  · have h' : c.cache_hits_ + c.cache_misses_ = 0 := h
    rw [AlgorithmsCache.CacheHitRate, if_pos h']
  · have h' : r.total_cache_hits_ + r.total_cache_misses_ ≠ 0 := h
    rw [AutoTuneCache.CacheHitRate, if_neg h']
    push_cast
    rfl
  · have h' : r.total_cache_hits_ + r.total_cache_misses_ = 0 := h
    rw [AutoTuneCache.CacheHitRate, if_pos h']

/-- Witness for C7: a family cache with 2 hits and 3 misses has rate
2/(2+3), and a fresh registry with zero totals has rate 0. -/
theorem cache_hit_rate_formula_witness :
    (⟨[], 2, 3⟩ : AlgorithmsCache Int).CacheHitRate
        = ((2 : ℚ)) / ((2 : ℚ) + (3 : ℚ))
    ∧ AutoTuneCache.CacheHitRate ⟨[], 0, 0, 0⟩ = 0 :=
  ⟨(cache_hit_rate_formula (⟨[], 2, 3⟩ : AlgorithmsCache Int) ⟨[], 0, 0, 0⟩).1
      (by decide),
   (cache_hit_rate_formula (⟨[], 2, 3⟩ : AlgorithmsCache Int) ⟨[], 0, 0, 0⟩).2.2.2
      (by decide)⟩

theorem foldl_status_acc (l : List (String × AlgorithmsCache Int)) (a b c : Int) :
    l.foldl
      (fun acc v => (acc.1 + v.2.Size, acc.2.1 + v.2.CacheHits, acc.2.2 + v.2.CacheMisses))
      (a, b, c)
      = (a + (l.map (fun v => v.2.Size)).sum,
         b + (l.map (fun v => v.2.CacheHits)).sum,
         c + (l.map (fun v => v.2.CacheMisses)).sum) := by
  induction l generalizing a b c with
  | nil => simp
  | cons p rest ih => simp [List.foldl, ih, add_assoc]

/-- Claim C8: UpdateStatus sets the three totals to exactly the sums of
Size, CacheHits and CacheMisses over all registered families and mutates no
family cache; the registry accessors report only this snapshot, so a family
mutation or a Clean performed after the last UpdateStatus does not change
what Size, CacheHits, CacheMisses and CacheHitRate report. -/
theorem update_status_snapshot (r : AutoTuneCache) :
    r.UpdateStatus.total_size_ = (r.auto_tune_map_.map (fun v => v.2.Size)).sum
    ∧ r.UpdateStatus.total_cache_hits_
        = (r.auto_tune_map_.map (fun v => v.2.CacheHits)).sum
    ∧ r.UpdateStatus.total_cache_misses_
        = (r.auto_tune_map_.map (fun v => v.2.CacheMisses)).sum
    ∧ r.UpdateStatus.auto_tune_map_ = r.auto_tune_map_
    ∧ r.UpdateStatus.Size = (r.auto_tune_map_.map (fun v => v.2.Size)).sum
    ∧ r.UpdateStatus.CacheHits = (r.auto_tune_map_.map (fun v => v.2.CacheHits)).sum
    ∧ r.UpdateStatus.CacheMisses
        = (r.auto_tune_map_.map (fun v => v.2.CacheMisses)).sum
    ∧ (∀ (name : String) (k : Nat) (v : Int),
        (r.SetInFamily name k v).Size = r.Size
          ∧ (r.SetInFamily name k v).CacheHits = r.CacheHits
          ∧ (r.SetInFamily name k v).CacheMisses = r.CacheMisses
          ∧ (r.SetInFamily name k v).CacheHitRate = r.CacheHitRate)
    ∧ (∀ q : ℚ, (r.Clean q).Size = r.Size
          ∧ (r.Clean q).CacheHits = r.CacheHits
          ∧ (r.Clean q).CacheMisses = r.CacheMisses
          ∧ (r.Clean q).CacheHitRate = r.CacheHitRate) := by
  refine ⟨?_, ?_, ?_, ?_, ?_, ?_, ?_, fun name k v => ?_, fun q => ?_⟩
  · simp only [AutoTuneCache.UpdateStatus]
    rw [foldl_status_acc]
    simp
  · simp only [AutoTuneCache.UpdateStatus]
    rw [foldl_status_acc]
    simp
  · simp only [AutoTuneCache.UpdateStatus]
    rw [foldl_status_acc]
    simp
  · rfl
  · simp only [AutoTuneCache.UpdateStatus, AutoTuneCache.Size]
    rw [foldl_status_acc]
    simp
  · simp only [AutoTuneCache.UpdateStatus, AutoTuneCache.CacheHits]
    rw [foldl_status_acc]
    simp
  · simp only [AutoTuneCache.UpdateStatus, AutoTuneCache.CacheMisses]
    rw [foldl_status_acc]
    simp
  · cases h : assocFind r.auto_tune_map_ name <;>
      simp [AutoTuneCache.SetInFamily, h, AutoTuneCache.Size,
        AutoTuneCache.CacheHits, AutoTuneCache.CacheMisses,
        AutoTuneCache.CacheHitRate]
  · rcases lt_or_le (1 / 100 : ℚ) q with hq | hq
    · rw [AutoTuneCache.Clean, if_pos hq]
      exact ⟨rfl, rfl, rfl, rfl⟩
    · rw [AutoTuneCache.Clean, if_neg (not_lt.mpr hq)]
      exact ⟨rfl, rfl, rfl, rfl⟩

/-- Claim C9: RegisterOrGet on an unseen family name returns a freshly
created empty cache with Size, hits and misses 0; a second RegisterOrGet
with the same name returns the same cache and registry state, and a
mutation made through the shared family entry is visible through the cache
a later RegisterOrGet returns. -/
theorem register_or_get_family (r : AutoTuneCache) (name : String) :
    (assocFind r.auto_tune_map_ name = none →
      (r.RegisterOrGet name).1.Size = 0
        ∧ (r.RegisterOrGet name).1.CacheHits = 0
        ∧ (r.RegisterOrGet name).1.CacheMisses = 0)
    ∧ ((r.RegisterOrGet name).2).RegisterOrGet name = r.RegisterOrGet name
    ∧ (∀ (k : Nat) (v : Int),
        ((((r.RegisterOrGet name).2).SetInFamily name k v).RegisterOrGet name).1
          = ((r.RegisterOrGet name).1).Set k v) := by
  cases h : assocFind r.auto_tune_map_ name with
  | none =>
      refine ⟨fun _ => ?_, ?_, fun k v => ?_⟩
      · simp [AutoTuneCache.RegisterOrGet, h, assocFind_insert_self,
          AlgorithmsCache.empty, AlgorithmsCache.Size,
          AlgorithmsCache.CacheHits, AlgorithmsCache.CacheMisses]
      · simp [AutoTuneCache.RegisterOrGet, h, assocFind_insert_self]
      · simp [AutoTuneCache.RegisterOrGet, AutoTuneCache.SetInFamily, h,
          assocFind_insert_self]
  | some c =>
      refine ⟨fun hnone => ?_, ?_, fun k v => ?_⟩
      · simp at hnone
      · simp [AutoTuneCache.RegisterOrGet, h]
      · simp [AutoTuneCache.RegisterOrGet, AutoTuneCache.SetInFamily, h,
          assocFind_insert_self]

/-- Witness for C9: RegisterOrGet of the name conv on the empty registry
yields a cache with Size 0, 0 hits and 0 misses. -/
theorem register_or_get_family_witness :
    (AutoTuneCache.empty.RegisterOrGet "conv").1.Size = 0
    ∧ (AutoTuneCache.empty.RegisterOrGet "conv").1.CacheHits = 0
    ∧ (AutoTuneCache.empty.RegisterOrGet "conv").1.CacheMisses = 0 :=
  (register_or_get_family AutoTuneCache.empty "conv").1 (by rfl)

end PhiAutotune
